import Mathlib

/-!
# Verification of the govault encryption core

A shallow embedding, in Lean 4, of the govault repository's encryption /
key-management subsystem (package `internal`: `GovaultDB`, `Encrypt`,
`Decrypt`, `GetKeyIDs`, `GetKeyIDFromEncryptedData`, `DecryptRecursive`)
and of the Bun insert adapter's `encryptModel` field walker.

Conventions of the embedding:
* Go byte slices become `List Nat` (each entry a byte value `< 256`).
* Go's `[]byte(string)` / `string([]byte)` conversions are modelled by an
  executable UTF-8 encoder/decoder over the string's character codepoints.
* The Go standard library AES-256-GCM AEAD (`cipher.AEAD`) is modelled
  abstractly but executably: `Seal` tags the plaintext with the key and
  nonce, `Open` checks that tag, so that opening succeeds exactly when the
  same key and nonce are supplied, mirroring the AEAD contract.  A nonce of
  the wrong size (where Go's GCM panics) is modelled as an `Open` failure.
* `encoding/base64.StdEncoding` is implemented concretely.
* Go's fallible functions return `Except GovaultError α`; the reflective
  walkers, which mutate their argument in place and return an `error`,
  return the updated value paired with an `Option GovaultError`.
* Randomness (`crypto/rand.Read` of a fresh nonce) is externalized: the
  nonce is an explicit argument of `Encrypt`, and the field walker takes a
  stream of nonces indexed by a counter.
-/

namespace Govault

/-- Error values produced by the govault core.  Each constructor corresponds
to one `fmt.Errorf` site in the Go source. -/
inductive GovaultError where
  /-- `"invalid encrypted data format"` (the `SplitN` length check). -/
  | invalidFormat : GovaultError
  /-- `"encryption key '%s' not found"` (in `Encrypt`). -/
  | unknownKeyEncrypt (id : String) : GovaultError
  /-- `"encryption key '%s' not found. Available: %v"` (in `Decrypt`). -/
  | unknownKeyDecrypt (id : String) (available : List String) : GovaultError
  /-- `"failed to decode nonce: %w"`. -/
  | decodeNonceFailed : GovaultError
  /-- `"failed to decode ciphertext: %w"`. -/
  | decodeCiphertextFailed : GovaultError
  /-- `"failed to decrypt: %w"` (AEAD `Open` failure). -/
  | decryptionFailed : GovaultError
  /-- `"failed to decrypt field %s: %w"` (in `DecryptRecursive`). -/
  | fieldDecryptError (fieldName : String) (e : GovaultError) : GovaultError
  /-- `"failed to encrypt field %s: %w"` (in `encryptModel`). -/
  | fieldEncryptError (fieldName : String) (e : GovaultError) : GovaultError
deriving DecidableEq, Repr

instance {ε α : Type} [DecidableEq ε] [DecidableEq α] : DecidableEq (Except ε α) := fun a b =>
  match a, b with
  | .ok x, .ok y => if h : x = y then .isTrue (by rw [h]) else .isFalse (by simp [h])
  | .error x, .error y => if h : x = y then .isTrue (by rw [h]) else .isFalse (by simp [h])
  | .ok _, .error _ => .isFalse (by simp)
  | .error _, .ok _ => .isFalse (by simp)

/-! ## UTF-8 (model of Go's `[]byte(string)` and `string([]byte)`) -/

/-- UTF-8 encoding of one Unicode codepoint, as byte values. -/
def utf8EncodeChar (c : Nat) : List Nat :=
  if c < 0x80 then [c]
  else if c < 0x800 then [0xC0 + c / 64, 0x80 + c % 64]
  else if c < 0x10000 then [0xE0 + c / 4096, 0x80 + (c / 64) % 64, 0x80 + c % 64]
  else [0xF0 + c / 0x40000, 0x80 + (c / 4096) % 64, 0x80 + (c / 64) % 64, 0x80 + c % 64]

/-- UTF-8 encoding of a list of codepoints. -/
def utf8Encode : List Nat → List Nat
  | [] => []
  | c :: cs => utf8EncodeChar c ++ utf8Encode cs

-- `none` on a byte sequence that is not the image of `utf8Encode`;
-- `utf8DecodeTail2/3/4` consume the continuation bytes of a 2-, 3-, or
-- 4-byte sequence whose lead byte was `b0`.
mutual

/-- UTF-8 decoding back to codepoints. -/
def utf8Decode : List Nat → Option (List Nat)
  | [] => some []
  | b0 :: rest =>
    if b0 < 0x80 then (utf8Decode rest).map (b0 :: ·)
    else if b0 < 0xC0 then none
    else if b0 < 0xE0 then utf8DecodeTail2 b0 rest
    else if b0 < 0xF0 then utf8DecodeTail3 b0 rest
    else if b0 < 0xF8 then utf8DecodeTail4 b0 rest
    else none

/-- Continuation byte of a 2-byte UTF-8 sequence. -/
def utf8DecodeTail2 (b0 : Nat) : List Nat → Option (List Nat)
  | b1 :: rest' =>
    if 0x80 ≤ b1 ∧ b1 < 0xC0 then
      (utf8Decode rest').map (((b0 - 0xC0) * 64 + (b1 - 0x80)) :: ·)
    else none
  | [] => none

/-- Continuation bytes of a 3-byte UTF-8 sequence. -/
def utf8DecodeTail3 (b0 : Nat) : List Nat → Option (List Nat)
  | b1 :: b2 :: rest' =>
    if (0x80 ≤ b1 ∧ b1 < 0xC0) ∧ (0x80 ≤ b2 ∧ b2 < 0xC0) then
      (utf8Decode rest').map
        (((b0 - 0xE0) * 4096 + (b1 - 0x80) * 64 + (b2 - 0x80)) :: ·)
    else none
  | _ => none

/-- Continuation bytes of a 4-byte UTF-8 sequence. -/
def utf8DecodeTail4 (b0 : Nat) : List Nat → Option (List Nat)
  | b1 :: b2 :: b3 :: rest' =>
    if (0x80 ≤ b1 ∧ b1 < 0xC0) ∧ (0x80 ≤ b2 ∧ b2 < 0xC0) ∧ (0x80 ≤ b3 ∧ b3 < 0xC0) then
      (utf8Decode rest').map
        (((b0 - 0xF0) * 0x40000 + (b1 - 0x80) * 4096 + (b2 - 0x80) * 64 + (b3 - 0x80)) :: ·)
    else none
  | _ => none

end

/-- Go's `[]byte(plaintext)`: the UTF-8 bytes of the string. -/
def strToBytes (s : String) : List Nat :=
  utf8Encode (s.data.map Char.toNat)

/-- Nat-to-Char conversion used when rebuilding a string from decoded
codepoints. -/
def charsOfCodepoints (cps : List Nat) : List Char :=
  cps.map Char.ofNat

/-- Go's `string(bytes)`.  On valid UTF-8 this decodes the bytes; Go keeps
invalid bytes verbatim inside its (byte-based) strings, which Lean's
unicode strings cannot represent, so the fallback maps bytes to codepoints
directly.  Only the valid branch is exercised by the theorems below. -/
def bytesToStr (bs : List Nat) : String :=
  match utf8Decode bs with
  | some cps => ⟨charsOfCodepoints cps⟩
  | none => ⟨charsOfCodepoints bs⟩

/-! ## base64 (model of `encoding/base64.StdEncoding`) -/

/-- The standard base64 alphabet. -/
def b64Alphabet : List Char :=
  "ABCDEFGHIJKLMNOPQRSTUVWXYZabcdefghijklmnopqrstuvwxyz0123456789+/".data

/-- Character for one six-bit group. -/
def sextetToChar (n : Nat) : Char := b64Alphabet.getD n 'A'

/-- Inverse of `sextetToChar` on the alphabet. -/
def charToSextet (c : Char) : Option Nat := b64Alphabet.indexOf? c

/-- `StdEncoding.EncodeToString`, producing the character list. -/
def b64EncodeChars : List Nat → List Char
  | [] => []
  | [b0] => [sextetToChar (b0 / 4), sextetToChar (b0 % 4 * 16), '=', '=']
  | [b0, b1] =>
      [sextetToChar (b0 / 4), sextetToChar (b0 % 4 * 16 + b1 / 16),
       sextetToChar (b1 % 16 * 4), '=']
  | b0 :: b1 :: b2 :: rest =>
      sextetToChar (b0 / 4) :: sextetToChar (b0 % 4 * 16 + b1 / 16) ::
      sextetToChar (b1 % 16 * 4 + b2 / 64) :: sextetToChar (b2 % 64) ::
      b64EncodeChars rest

/-- `StdEncoding.EncodeToString`. -/
def base64Encode (bs : List Nat) : String := ⟨b64EncodeChars bs⟩

/-- `StdEncoding.DecodeString`, on the character list; `none` models a
decode error. -/
def b64DecodeChars : List Char → Option (List Nat)
  | [] => some []
  | [c0, c1, c2, c3] =>
    if c3 = '=' then
      if c2 = '=' then do
        let s0 ← charToSextet c0
        let s1 ← charToSextet c1
        pure [s0 * 4 + s1 / 16]
      else do
        let s0 ← charToSextet c0
        let s1 ← charToSextet c1
        let s2 ← charToSextet c2
        pure [s0 * 4 + s1 / 16, s1 % 16 * 16 + s2 / 4]
    else do
      let s0 ← charToSextet c0
      let s1 ← charToSextet c1
      let s2 ← charToSextet c2
      let s3 ← charToSextet c3
      pure [s0 * 4 + s1 / 16, s1 % 16 * 16 + s2 / 4, s2 % 4 * 64 + s3]
  | c0 :: c1 :: c2 :: c3 :: rest => do
      let s0 ← charToSextet c0
      let s1 ← charToSextet c1
      let s2 ← charToSextet c2
      let s3 ← charToSextet c3
      let bs ← b64DecodeChars rest
      pure ((s0 * 4 + s1 / 16) :: (s1 % 16 * 16 + s2 / 4) :: (s2 % 4 * 64 + s3) :: bs)
  | _ => none

/-- `StdEncoding.DecodeString`. -/
def base64Decode (s : String) : Option (List Nat) := b64DecodeChars s.data

/-! ## AEAD (abstract executable model of AES-256-GCM) -/

/-- Model of `cipher.AEAD.Seal(nil, nonce, plaintext, nil)`: the ciphertext
carries the key and nonce as its authentication tag, so that `gcmOpen`
succeeds exactly for the matching key and nonce. -/
def gcmSeal (key nonce pt : List Nat) : List Nat := key ++ nonce ++ pt

/-- Model of `cipher.AEAD.Open(nil, nonce, ct, nil)`: authentication
succeeds only for the sealing key and nonce.  Go's GCM panics on a nonce
whose length is not 12; that outcome is modelled as a failure. -/
def gcmOpen (key nonce ct : List Nat) : Option (List Nat) :=
  if nonce.length = 12 ∧ (key ++ nonce).isPrefixOf ct then
    some (ct.drop (key.length + nonce.length))
  else none

/-! ## strings.SplitN -/

/-- Split off everything before the first occurrence of `sep`; `none` when
`sep` does not occur. -/
def splitFirst (sep : Char) (s : List Char) : Option (List Char × List Char) :=
  match s.dropWhile (· ≠ sep) with
  | [] => none
  | _ :: rest => some (s.takeWhile (· ≠ sep), rest)

/-- Go's `strings.SplitN(s, sep, n)` for a one-character separator and
`n ≥ 1` (the code uses `n = 2` and `n = 3`). -/
def splitNChars (sep : Char) : List Char → Nat → List (List Char)
  | _, 0 => []
  | s, 1 => [s]
  | s, n + 2 =>
    match splitFirst sep s with
    | none => [s]
    | some (pre, post) => pre :: splitNChars sep post (n + 1)

/-- `strings.SplitN` on `String`. -/
def splitN (s : String) (sep : Char) (n : Nat) : List String :=
  (splitNChars sep s.data n).map (⟨·⟩)

/-! ## Key registry (`internal.Key`, `internal.GovaultDB`) -/

/-- `internal.Key`: an encryption key with its ID.  The derived
`cipher.AEAD` is determined by `value` (no key derivation), so it is not a
separate field of the model. -/
structure Key where
  id : String
  value : List Nat
deriving DecidableEq, Repr

/-- `internal.GovaultDB`: the key registry.  The Go `map[string]*Key` is
modelled as an association list with unique ids; `lookup` models map
indexing. -/
structure GovaultDB where
  keys : List (String × Key)
  defaultKey : String
deriving DecidableEq, Repr

/-- Lexicographic comparison of character lists by codepoint; on UTF-8
strings this coincides with Go's byte-wise string order. -/
def charListLe : List Char → List Char → Bool
  | [], _ => true
  | _ :: _, [] => false
  | x :: xs, y :: ys =>
    if x.toNat < y.toNat then true
    else if y.toNat < x.toNat then false
    else charListLe xs ys

/-- Go's `s1 <= s2` on strings (byte-wise lexicographic). -/
def strLe (a b : String) : Bool := charListLe a.data b.data

/-- Insertion of a string into a sorted list (ascending), used to model
`sort.Strings`. -/
def insertSorted (x : String) : List String → List String
  | [] => [x]
  | y :: ys => if strLe x y then x :: y :: ys else y :: insertSorted x ys

/-- Deterministic ascending sort, modelling `sort.Strings`. -/
def sortStrings (l : List String) : List String := l.foldr insertSorted []

/-- `GovaultDB.GetKeyIDs`: all key IDs, sorted ascending. -/
def GovaultDB.GetKeyIDs (g : GovaultDB) : List String :=
  sortStrings (g.keys.map Prod.fst)

/-- `GovaultDB.GetDefaultKeyID`. -/
def GovaultDB.GetDefaultKeyID (g : GovaultDB) : String := g.defaultKey

/-- `GovaultDB.GetKeyIDFromEncryptedData`: extracts `key_id` from encrypted
data.  Empty input returns the empty string; otherwise the input is split
on the first `|` and the first part returned; the `len(parts) < 1` error
branch of the Go code is kept verbatim. -/
def GovaultDB.GetKeyIDFromEncryptedData (_g : GovaultDB) (encryptedData : String) :
    Except GovaultError String :=
  if encryptedData = "" then .ok ""
  else
    match splitN encryptedData '|' 2 with
    | [] => .error .invalidFormat
    | p :: _ => .ok p

/-! ## CryptoEngine (`Encrypt` / `Decrypt`) -/

/-- The key-resolution step of `Encrypt`: the first element of the variadic
`keyID` argument when present and non-empty, else the registry default. -/
def resolveKeyID (g : GovaultDB) (keyID : List String) : String :=
  match keyID with
  | k :: _ => if k ≠ "" then k else g.defaultKey
  | [] => g.defaultKey

/-- `GovaultDB.Encrypt`: encrypts `plaintext` with the key named by the
variadic `keyID` argument (or the default key).  The freshly generated
random nonce is externalized as the `nonce` argument. -/
def GovaultDB.Encrypt (g : GovaultDB) (nonce : List Nat) (plaintext : String)
    (keyID : List String) : Except GovaultError String :=
  if plaintext = "" then .ok ""
  else
    let targetKeyID := resolveKeyID g keyID
    match g.keys.lookup targetKeyID with
    | none => .error (.unknownKeyEncrypt targetKeyID)
    | some key =>
      let ciphertext := gcmSeal key.value nonce (strToBytes plaintext)
      .ok (targetKeyID ++ "|" ++ base64Encode nonce ++ "|" ++ base64Encode ciphertext)

/-- The tail of `GovaultDB.Decrypt` after the format check succeeded:
key lookup, base64 decoding of nonce and ciphertext, and AEAD `Open`. -/
def decryptParts (g : GovaultDB) (keyID nonceB64 ciphertextB64 : String) :
    Except GovaultError String :=
  match g.keys.lookup keyID with
  | none => .error (.unknownKeyDecrypt keyID g.GetKeyIDs)
  | some key =>
    match base64Decode nonceB64 with
    | none => .error .decodeNonceFailed
    | some nonce =>
      match base64Decode ciphertextB64 with
      | none => .error .decodeCiphertextFailed
      | some ciphertext =>
        match gcmOpen key.value nonce ciphertext with
        | none => .error .decryptionFailed
        | some plaintext => .ok (bytesToStr plaintext)

/-- `GovaultDB.Decrypt`: decrypts a `key_id|nonce|encrypted_data` token
using the key named inside the token. -/
def GovaultDB.Decrypt (g : GovaultDB) (encryptedData : String) :
    Except GovaultError String :=
  if encryptedData = "" then .ok ""
  else
    match splitN encryptedData '|' 3 with
    | [keyID, nonceB64, ciphertextB64] => decryptParts g keyID nonceB64 ciphertextB64
    | _ => .error .invalidFormat

/-! ## Infrastructure lemmas: base64 -/

theorem b64Alphabet_length : b64Alphabet.length = 64 := by decide

theorem sextetToChar_default (n : Nat) (h : 64 ≤ n) : sextetToChar n = 'A' := by
  unfold sextetToChar
  rw [List.getD, List.get?_eq_none.mpr (by rw [b64Alphabet_length]; omega)]
  rfl

theorem sextetToChar_ne_bar (n : Nat) : sextetToChar n ≠ '|' := by
  by_cases h : n < 64
  · revert h
    have : ∀ m, m < 64 → sextetToChar m ≠ '|' := by decide
    exact this n
  · rw [sextetToChar_default n (by omega)]
    decide

theorem sextetToChar_ne_pad (n : Nat) : sextetToChar n ≠ '=' := by
  by_cases h : n < 64
  · revert h
    have : ∀ m, m < 64 → sextetToChar m ≠ '=' := by decide
    exact this n
  · rw [sextetToChar_default n (by omega)]
    decide

theorem charToSextet_sextetToChar (n : Nat) (h : n < 64) :
    charToSextet (sextetToChar n) = some n := by
  revert h
  have : ∀ m, m < 64 → charToSextet (sextetToChar m) = some m := by decide
  exact this n

theorem bar_not_mem_b64EncodeChars (bs : List Nat) : '|' ∉ b64EncodeChars bs := by
  induction bs using b64EncodeChars.induct with
  | case1 => simp [b64EncodeChars]
  | case2 b0 =>
    simp only [b64EncodeChars, List.mem_cons, List.not_mem_nil]
    push_neg
    exact ⟨(sextetToChar_ne_bar _).symm, (sextetToChar_ne_bar _).symm, by decide, by decide, not_false⟩
  | case3 b0 b1 =>
    simp only [b64EncodeChars, List.mem_cons, List.not_mem_nil]
    push_neg
    exact ⟨(sextetToChar_ne_bar _).symm, (sextetToChar_ne_bar _).symm,
      (sextetToChar_ne_bar _).symm, by decide, not_false⟩
  | case4 b0 b1 b2 rest ih =>
    simp only [b64EncodeChars, List.mem_cons]
    push_neg
    exact ⟨(sextetToChar_ne_bar _).symm, (sextetToChar_ne_bar _).symm,
      (sextetToChar_ne_bar _).symm, (sextetToChar_ne_bar _).symm, ih⟩

theorem b64EncodeChars_ne_nil (bs : List Nat) (h : bs ≠ []) : b64EncodeChars bs ≠ [] := by
  match bs with
  | [] => exact absurd rfl h
  | [b0] => simp [b64EncodeChars]
  | [b0, b1] => simp [b64EncodeChars]
  | b0 :: b1 :: b2 :: rest => simp [b64EncodeChars]

theorem b64_roundtrip (bs : List Nat) (h : ∀ b ∈ bs, b < 256) :
    b64DecodeChars (b64EncodeChars bs) = some bs := by
  induction bs using b64EncodeChars.induct with
  | case1 => rfl
  | case2 b0 =>
    have hb0 : b0 < 256 := h b0 (by simp)
    simp only [b64EncodeChars, b64DecodeChars,
      charToSextet_sextetToChar (b0 / 4) (by omega),
      charToSextet_sextetToChar (b0 % 4 * 16) (by omega)]
    simp only [if_true, eq_self_iff_true, Option.bind_eq_bind, Option.some_bind,
      Option.pure_def, Option.some.injEq, List.cons.injEq, and_true]
    omega
  | case3 b0 b1 =>
    have hb0 : b0 < 256 := h b0 (by simp)
    have hb1 : b1 < 256 := h b1 (by simp)
    simp only [b64EncodeChars, b64DecodeChars,
      if_neg (sextetToChar_ne_pad (b1 % 16 * 4)),
      charToSextet_sextetToChar (b0 / 4) (by omega),
      charToSextet_sextetToChar (b0 % 4 * 16 + b1 / 16) (by omega),
      charToSextet_sextetToChar (b1 % 16 * 4) (by omega)]
    simp only [if_true, eq_self_iff_true, Option.bind_eq_bind, Option.some_bind,
      Option.pure_def, Option.some.injEq, List.cons.injEq, and_true]
    omega
  | case4 b0 b1 b2 rest ih =>
    have hb0 : b0 < 256 := h b0 (by simp)
    have hb1 : b1 < 256 := h b1 (by simp)
    have hb2 : b2 < 256 := h b2 (by simp)
    have hrest : ∀ b ∈ rest, b < 256 := fun b hb => h b (by simp [hb])
    have ih' := ih hrest
    rcases rest with _ | ⟨r0, rs⟩
    · simp only [b64EncodeChars, b64DecodeChars, if_neg (sextetToChar_ne_pad (b2 % 64)),
        charToSextet_sextetToChar (b0 / 4) (by omega),
        charToSextet_sextetToChar (b0 % 4 * 16 + b1 / 16) (by omega),
        charToSextet_sextetToChar (b1 % 16 * 4 + b2 / 64) (by omega),
        charToSextet_sextetToChar (b2 % 64) (by omega)]
      simp only [Option.bind_eq_bind, Option.some_bind,
        Option.pure_def, Option.some.injEq, List.cons.injEq, and_true]
      omega
    · obtain ⟨d0, d1, d2, d3, ds, henc⟩ :
          ∃ d0 d1 d2 d3 ds, b64EncodeChars (r0 :: rs) = d0 :: d1 :: d2 :: d3 :: ds := by
        match rs with
        | [] => exact ⟨_, _, _, _, _, rfl⟩
        | [r1] => exact ⟨_, _, _, _, _, rfl⟩
        | r1 :: r2 :: rrest => exact ⟨_, _, _, _, _, rfl⟩
      simp only [b64EncodeChars, henc, b64DecodeChars,
        charToSextet_sextetToChar (b0 / 4) (by omega),
        charToSextet_sextetToChar (b0 % 4 * 16 + b1 / 16) (by omega),
        charToSextet_sextetToChar (b1 % 16 * 4 + b2 / 64) (by omega),
        charToSextet_sextetToChar (b2 % 64) (by omega)]
      rw [← henc, ih']
      simp only [Option.bind_eq_bind, Option.some_bind,
        Option.pure_def, Option.some.injEq, List.cons.injEq]
      refine ⟨by omega, by omega, by omega, trivial⟩

theorem base64_decode_encode (bs : List Nat) (h : ∀ b ∈ bs, b < 256) :
    base64Decode (base64Encode bs) = some bs := by
  unfold base64Decode base64Encode
  exact b64_roundtrip bs h

theorem bar_not_mem_base64Encode (bs : List Nat) : '|' ∉ (base64Encode bs).data :=
  bar_not_mem_b64EncodeChars bs

/-! ## Infrastructure lemmas: UTF-8 -/

theorem utf8EncodeChar_lt_256 (c : Nat) (hc : c < 0x110000) :
    ∀ b ∈ utf8EncodeChar c, b < 256 := by
  unfold utf8EncodeChar
  split_ifs with h1 h2 h3 <;> intro b hb <;> simp only [List.mem_cons, List.not_mem_nil,
    or_false] at hb <;> rcases hb with hb | hb | hb | hb | hb <;> omega

theorem utf8Decode_encodeChar (c : Nat) (hc : c < 0x110000) (rest : List Nat) :
    utf8Decode (utf8EncodeChar c ++ rest) = (utf8Decode rest).map (c :: ·) := by
  unfold utf8EncodeChar
  split_ifs with h1 h2 h3
  · simp only [List.cons_append, List.nil_append]
    rw [utf8Decode, if_pos h1]
  · simp only [List.cons_append, List.nil_append]
    rw [utf8Decode, if_neg (by omega), if_neg (by omega), if_pos (by omega),
      utf8DecodeTail2, if_pos (by omega)]
    have : (0xC0 + c / 64 - 0xC0) * 64 + (0x80 + c % 64 - 0x80) = c := by omega
    rw [this]
  · simp only [List.cons_append, List.nil_append]
    rw [utf8Decode, if_neg (by omega), if_neg (by omega), if_neg (by omega),
      if_pos (by omega), utf8DecodeTail3, if_pos (by omega)]
    have : (0xE0 + c / 4096 - 0xE0) * 4096 + (0x80 + c / 64 % 64 - 0x80) * 64 +
        (0x80 + c % 64 - 0x80) = c := by omega
    rw [this]
  · simp only [List.cons_append, List.nil_append]
    rw [utf8Decode, if_neg (by omega), if_neg (by omega), if_neg (by omega),
      if_neg (by omega), if_pos (by omega), utf8DecodeTail4, if_pos (by omega)]
    have : (0xF0 + c / 0x40000 - 0xF0) * 0x40000 + (0x80 + c / 4096 % 64 - 0x80) * 4096 +
        (0x80 + c / 64 % 64 - 0x80) * 64 + (0x80 + c % 64 - 0x80) = c := by omega
    rw [this]

theorem utf8_roundtrip (cs : List Nat) (h : ∀ c ∈ cs, c < 0x110000) :
    utf8Decode (utf8Encode cs) = some cs := by
  induction cs with
  | nil => rfl
  | cons c cs ih =>
    have hc : c < 0x110000 := h c (by simp)
    have hcs : ∀ x ∈ cs, x < 0x110000 := fun x hx => h x (by simp [hx])
    simp only [utf8Encode, utf8Decode_encodeChar c hc, ih hcs, Option.map_some']

theorem utf8Encode_lt_256 (cs : List Nat) (h : ∀ c ∈ cs, c < 0x110000) :
    ∀ b ∈ utf8Encode cs, b < 256 := by
  induction cs with
  | nil => simp [utf8Encode]
  | cons c cs ih =>
    intro b hb
    simp only [utf8Encode, List.mem_append] at hb
    rcases hb with hb | hb
    · exact utf8EncodeChar_lt_256 c (h c (by simp)) b hb
    · exact ih (fun x hx => h x (by simp [hx])) b hb

theorem char_toNat_lt (c : Char) : c.toNat < 0x110000 := by
  have h := c.valid
  unfold Char.toNat
  rcases h with h | h <;> omega

theorem strToBytes_lt_256 (s : String) : ∀ b ∈ strToBytes s, b < 256 := by
  unfold strToBytes
  exact utf8Encode_lt_256 _ (by
    intro c hc
    simp only [List.mem_map] at hc
    obtain ⟨ch, _, rfl⟩ := hc
    exact char_toNat_lt ch)

theorem bytesToStr_strToBytes (s : String) : bytesToStr (strToBytes s) = s := by
  unfold bytesToStr strToBytes
  rw [utf8_roundtrip _ (by
    intro c hc
    simp only [List.mem_map] at hc
    obtain ⟨ch, _, rfl⟩ := hc
    exact char_toNat_lt ch)]
  show (⟨charsOfCodepoints (s.data.map Char.toNat)⟩ : String) = s
  unfold charsOfCodepoints
  rw [List.map_map]
  have : (Char.ofNat ∘ Char.toNat) = id := by
    funext ch
    exact Char.ofNat_toNat ch
  rw [this, List.map_id]

/-! ## Infrastructure lemmas: AEAD model -/

theorem gcmOpen_gcmSeal (key nonce pt : List Nat) (h : nonce.length = 12) :
    gcmOpen key nonce (gcmSeal key nonce pt) = some pt := by
  unfold gcmOpen gcmSeal
  rw [if_pos]
  · rw [← List.length_append key nonce, List.drop_left]
  · refine ⟨h, ?_⟩
    rw [List.isPrefixOf_iff_prefix]
    exact List.prefix_append _ _

/-! ## Infrastructure lemmas: SplitN -/

theorem takeWhile_append_sep (sep : Char) (l r : List Char) (hl : sep ∉ l) :
    (l ++ sep :: r).takeWhile (· ≠ sep) = l := by
  induction l with
  | nil => simp [List.takeWhile]
  | cons x xs ih =>
    have hx : x ≠ sep := fun hxe => hl (by simp [hxe])
    simp only [List.cons_append, List.takeWhile_cons]
    rw [if_pos (by simp [hx]), ih (fun hm => hl (by simp [hm]))]

theorem dropWhile_append_sep (sep : Char) (l r : List Char) (hl : sep ∉ l) :
    (l ++ sep :: r).dropWhile (· ≠ sep) = sep :: r := by
  induction l with
  | nil => simp [List.dropWhile]
  | cons x xs ih =>
    have hx : x ≠ sep := fun hxe => hl (by simp [hxe])
    simp only [List.cons_append, List.dropWhile_cons]
    rw [if_pos (by simp [hx]), ih (fun hm => hl (by simp [hm]))]

theorem splitFirst_append (sep : Char) (l r : List Char) (hl : sep ∉ l) :
    splitFirst sep (l ++ sep :: r) = some (l, r) := by
  unfold splitFirst
  rw [dropWhile_append_sep sep l r hl, takeWhile_append_sep sep l r hl]

theorem splitFirst_not_mem (sep : Char) (s : List Char) (hs : sep ∉ s) :
    splitFirst sep s = none := by
  unfold splitFirst
  have : s.dropWhile (· ≠ sep) = [] := by
    induction s with
    | nil => rfl
    | cons x xs ih =>
      have hx : x ≠ sep := fun hxe => hs (by simp [hxe])
      simp only [List.dropWhile_cons]
      rw [if_pos (by simp [hx])]
      exact ih (fun hm => hs (by simp [hm]))
  rw [this]

theorem splitNChars_token (l1 l2 l3 : List Char) (h1 : '|' ∉ l1) (h2 : '|' ∉ l2) :
    splitNChars '|' (l1 ++ '|' :: (l2 ++ '|' :: l3)) 3 = [l1, l2, l3] := by
  show splitNChars '|' (l1 ++ '|' :: (l2 ++ '|' :: l3)) (1 + 2) = [l1, l2, l3]
  unfold splitNChars
  rw [splitFirst_append '|' l1 _ h1]
  show l1 :: splitNChars '|' (l2 ++ '|' :: l3) (0 + 2) = [l1, l2, l3]
  unfold splitNChars
  rw [splitFirst_append '|' l2 _ h2]
  rfl

theorem takeWhile_eq_self_of_not_mem (sep : Char) (s : List Char) (hs : sep ∉ s) :
    s.takeWhile (· ≠ sep) = s := by
  induction s with
  | nil => rfl
  | cons x xs ih =>
    have hx : x ≠ sep := fun hxe => hs (by simp [hxe])
    simp only [List.takeWhile_cons]
    rw [if_pos (by simp [hx]), ih (fun hm => hs (by simp [hm]))]

/-! ## Infrastructure lemmas: registry and tokens -/

theorem lookup_mem {β : Type} (l : List (String × β)) (k : String) (v : β)
    (h : l.lookup k = some v) : (k, v) ∈ l := by
  induction l with
  | nil => simp [List.lookup] at h
  | cons a as ih =>
    rw [List.lookup] at h
    by_cases hk : k == a.1
    · simp only [hk, if_true] at h
      have hke := eq_of_beq hk
      cases a
      simp_all [List.mem_cons]
    · simp only [hk] at h
      exact List.mem_cons_of_mem _ (ih h)

theorem token_data (tid bn bc : String) :
    (tid ++ "|" ++ bn ++ "|" ++ bc).data = tid.data ++ '|' :: (bn.data ++ '|' :: bc.data) := by
  have hbar : ("|" : String).data = ['|'] := rfl
  simp [String.data_append, hbar]

theorem token_ne_empty (tid bn bc : String) : tid ++ "|" ++ bn ++ "|" ++ bc ≠ "" := by
  intro h
  have hd := congrArg String.data h
  rw [token_data] at hd
  have : ('|' : Char) ∈ ([] : List Char) := by
    rw [show ([] : List Char) = ("" : String).data from rfl, ← hd]
    simp
  simp at this

theorem splitN_token (tid bn bc : String) (h1 : '|' ∉ tid.data) (h2 : '|' ∉ bn.data) :
    splitN (tid ++ "|" ++ bn ++ "|" ++ bc) '|' 3 = [tid, bn, bc] := by
  unfold splitN
  rw [token_data, splitNChars_token tid.data bn.data bc.data h1 h2]
  rfl

theorem splitFirst_count (sep : Char) (s : List Char) :
    (splitFirst sep s = none → s.count sep = 0) ∧
    (∀ pre post, splitFirst sep s = some (pre, post) →
      s.count sep = post.count sep + 1 ∧ sep ∉ pre) := by
  induction s with
  | nil => exact ⟨fun _ => rfl, fun pre post h => by simp [splitFirst] at h⟩
  | cons x xs ih =>
    by_cases hx : x = sep
    · subst hx
      constructor
      · intro h
        simp [splitFirst, List.dropWhile_cons] at h
      · intro pre post h
        simp only [splitFirst, List.dropWhile_cons, decide_not, if_neg,
          decide_eq_true_eq, not_true, ite_false] at h
        rw [if_neg (by simp)] at h
        simp only [List.takeWhile_cons, decide_eq_true_eq] at h
        rw [if_neg (by simp)] at h
        cases h
        simp [List.count_cons]
    · constructor
      · intro h
        unfold splitFirst at h
        rw [List.dropWhile_cons, if_pos (by simp [hx])] at h
        have hnone : splitFirst sep xs = none := by
          unfold splitFirst
          cases hd : xs.dropWhile (· ≠ sep) with
          | nil => rfl
          | cons d ds => rw [hd] at h; simp at h
        rw [List.count_cons, ih.1 hnone]
        simp [hx]
      · intro pre post h
        unfold splitFirst at h
        rw [List.dropWhile_cons, if_pos (by simp [hx])] at h
        cases hd : xs.dropWhile (· ≠ sep) with
        | nil => rw [hd] at h; simp at h
        | cons d ds =>
          rw [hd] at h
          simp only [Option.some.injEq, Prod.mk.injEq] at h
          obtain ⟨hpre, hpost⟩ := h
          have hsome : splitFirst sep xs = some (xs.takeWhile (· ≠ sep), ds) := by
            unfold splitFirst
            rw [hd]
          obtain ⟨hcnt, hnm⟩ := ih.2 _ _ hsome
          subst hpost
          constructor
          · rw [List.count_cons, hcnt]
            simp [hx]
          · rw [← hpre] at *
            rw [List.takeWhile_cons, if_pos (by simp [hx])]
            intro hmem
            rcases List.mem_cons.mp hmem with hm | hm
            · exact hx hm.symm
            · exact hnm hm

theorem splitFirst_some_fst (sep : Char) (s pre post : List Char)
    (h : splitFirst sep s = some (pre, post)) : pre = s.takeWhile (· ≠ sep) := by
  unfold splitFirst at h
  cases hd : s.dropWhile (· ≠ sep) with
  | nil => rw [hd] at h; simp at h
  | cons d ds =>
    rw [hd] at h
    simp only [Option.some.injEq, Prod.mk.injEq] at h
    exact h.1.symm

theorem splitNChars_two (s : List Char) :
    splitNChars '|' s 2 = match splitFirst '|' s with
      | none => [s]
      | some (pre, post) => [pre, post] := by
  show splitNChars '|' s (0 + 2) = _
  unfold splitNChars
  cases h : splitFirst '|' s with
  | none => rfl
  | some pr =>
    obtain ⟨pre, post⟩ := pr
    rfl

theorem splitNChars_three (s : List Char) :
    splitNChars '|' s 3 = match splitFirst '|' s with
      | none => [s]
      | some (pre, post) => pre :: splitNChars '|' post 2 := by
  show splitNChars '|' s (1 + 2) = _
  unfold splitNChars
  cases h : splitFirst '|' s with
  | none => rfl
  | some pr =>
    obtain ⟨pre, post⟩ := pr
    rfl

theorem splitNChars_three_some (s pre post : List Char)
    (h : splitFirst '|' s = some (pre, post)) :
    splitNChars '|' s 3 = pre :: splitNChars '|' post 2 := by
  rw [splitNChars_three, h]

theorem splitNChars_three_none (s : List Char) (h : splitFirst '|' s = none) :
    splitNChars '|' s 3 = [s] := by
  rw [splitNChars_three, h]

theorem splitNChars_two_some (s pre post : List Char)
    (h : splitFirst '|' s = some (pre, post)) :
    splitNChars '|' s 2 = [pre, post] := by
  rw [splitNChars_two, h]

theorem splitNChars_two_none (s : List Char) (h : splitFirst '|' s = none) :
    splitNChars '|' s 2 = [s] := by
  rw [splitNChars_two, h]

theorem token_count_bar (tid bn bc : String) (h1 : '|' ∉ tid.data) (h2 : '|' ∉ bn.data)
    (h3 : '|' ∉ bc.data) : (tid ++ "|" ++ bn ++ "|" ++ bc).data.count '|' = 2 := by
  rw [token_data]
  rw [List.count_append, List.count_cons, List.count_append, List.count_cons,
    List.count_eq_zero.mpr h1, List.count_eq_zero.mpr h2, List.count_eq_zero.mpr h3]
  simp

/-- Shared round-trip core: encrypting with any resolvable key id (whose id
contains no separator and whose key bytes are bytes) and then decrypting
with a registry holding the same key map recovers the plaintext. -/
theorem roundtrip_core (ks : List (String × Key)) (d1 d2 : String)
    (nonce : List Nat) (p : String) (kid : List String) (key : Key)
    (hlk : ks.lookup (resolveKeyID ⟨ks, d1⟩ kid) = some key)
    (hid : '|' ∉ (resolveKeyID ⟨ks, d1⟩ kid).data)
    (hkb : ∀ b ∈ key.value, b < 256)
    (hnl : nonce.length = 12)
    (hnb : ∀ b ∈ nonce, b < 256) :
    (GovaultDB.Encrypt ⟨ks, d1⟩ nonce p kid).bind
      (fun t => GovaultDB.Decrypt ⟨ks, d2⟩ t) = .ok p := by
  by_cases hp : p = ""
  · subst hp
    simp [GovaultDB.Encrypt, GovaultDB.Decrypt, Except.bind]
  · simp only [GovaultDB.Encrypt, if_neg hp, hlk, Except.bind]
    set tid := resolveKeyID ⟨ks, d1⟩ kid with htid
    have hct : ∀ b ∈ gcmSeal key.value nonce (strToBytes p), b < 256 := by
      intro b hb
      unfold gcmSeal at hb
      simp only [List.mem_append] at hb
      rcases hb with (hb | hb) | hb
      · exact hkb b hb
      · exact hnb b hb
      · exact strToBytes_lt_256 p b hb
    simp only [GovaultDB.Decrypt, if_neg (token_ne_empty tid _ _),
      splitN_token tid _ _ hid (bar_not_mem_base64Encode nonce), decryptParts, hlk,
      base64_decode_encode nonce hnb, base64_decode_encode _ hct,
      gcmOpen_gcmSeal key.value nonce _ hnl, bytesToStr_strToBytes]

/-! ## Registry validity predicates and concrete registries -/

/-- Every key in the registry was constructed from 32 key bytes
(`newKey` validates `len(keyBytes) == 32`; bytes are `< 256`). -/
def RegistryKeysValid (g : GovaultDB) : Prop :=
  ∀ q ∈ g.keys, q.2.value.length = 32 ∧ ∀ b ∈ q.2.value, b < 256

/-- No key ID in the registry contains the token separator. -/
def RegistryIDsBarFree (g : GovaultDB) : Prop :=
  ∀ q ∈ g.keys, '|' ∉ q.1.data

instance (g : GovaultDB) : Decidable (RegistryKeysValid g) := by
  unfold RegistryKeysValid
  infer_instance

instance (g : GovaultDB) : Decidable (RegistryIDsBarFree g) := by
  unfold RegistryIDsBarFree
  infer_instance

/-- Concrete key `"1"` used in witnesses. -/
def key1 : Key := ⟨"1", List.replicate 32 7⟩

/-- Concrete key `"2"` used in witnesses. -/
def key2 : Key := ⟨"2", List.replicate 32 9⟩

/-- Concrete two-key registry with default `"2"`, as in the repository's
tests. -/
def gW : GovaultDB := ⟨[("1", key1), ("2", key2)], "2"⟩

/-- A concrete 12-byte nonce. -/
def nonceW : List Nat := [0, 1, 2, 3, 4, 5, 6, 7, 8, 9, 10, 11]

/-- A registry whose single key ID contains the separator character:
`New` never validates IDs against `'|'`. -/
def gBad : GovaultDB := ⟨[("a|b", ⟨"a|b", List.replicate 32 0⟩)], "a|b"⟩

/-- **C1** (amended): for every registry of 32-byte keys whose key IDs do
not contain the separator, and every plaintext, decrypting an encryption
(under the default key or any resolvable key) recovers the plaintext. -/
theorem c1_decrypt_encrypt_roundtrip (g : GovaultDB) (nonce : List Nat) (p : String)
    (kid : List String) (key : Key)
    (hvalid : RegistryKeysValid g) (hbar : RegistryIDsBarFree g)
    (hlk : g.keys.lookup (resolveKeyID g kid) = some key)
    (hnl : nonce.length = 12) (hnb : ∀ b ∈ nonce, b < 256) :
    (g.Encrypt nonce p kid).bind (fun t => g.Decrypt t) = .ok p := by
  obtain ⟨ks, d⟩ := g
  exact roundtrip_core ks d d nonce p kid key hlk
    (hbar _ (lookup_mem _ _ _ hlk))
    ((hvalid _ (lookup_mem _ _ _ hlk)).2) hnl hnb

/-- Witness for C1 at a concrete registry, nonce and plaintext. -/
theorem c1_witness :
    (gW.Encrypt nonceW "a@x.com" []).bind (fun t => gW.Decrypt t) = .ok "a@x.com" :=
  c1_decrypt_encrypt_roundtrip gW nonceW "a@x.com" [] key2
    (by decide) (by decide) (by decide) (by decide) (by decide)

/-- Counterexample to C1 as stated: with a registered key ID containing
the separator, the encrypt-then-decrypt round trip fails. -/
theorem c1_counterexample :
    (gBad.Encrypt nonceW "x" []).bind (fun t => gBad.Decrypt t)
        = .error (.unknownKeyDecrypt "a" ["a|b"]) ∧
    (gBad.Encrypt nonceW "x" []).bind (fun t => gBad.Decrypt t) ≠ .ok "x" := by
  constructor
  · decide
  · decide

/-- **C3**: decryption of a `id|nonce|ciphertext` token uses the key
registered under `id` independently of the current default key (so a token
outlives a default-key rotation while its key stays registered), and a
token naming an unregistered id fails with the unknown-key error carrying
the sorted list of available key IDs.  The registry itself is a pure value
the function never modifies. -/
theorem c3_decrypt_uses_token_key (ks : List (String × Key)) (d1 d2 : String)
    (nonce : List Nat) (p : String) (id : String) (key : Key)
    (s nb cb badID : String)
    (hlk : ks.lookup id = some key) (hid : '|' ∉ id.data) (hidne : id ≠ "")
    (hkb : ∀ b ∈ key.value, b < 256)
    (hnl : nonce.length = 12) (hnb : ∀ b ∈ nonce, b < 256)
    (hsplit : splitN s '|' 3 = [badID, nb, cb]) (hbad : ks.lookup badID = none) :
    (∀ t, GovaultDB.Decrypt ⟨ks, d1⟩ t = GovaultDB.Decrypt ⟨ks, d2⟩ t) ∧
    (GovaultDB.Encrypt ⟨ks, d1⟩ nonce p [id]).bind
      (fun t => GovaultDB.Decrypt ⟨ks, d2⟩ t) = .ok p ∧
    GovaultDB.Decrypt ⟨ks, d1⟩ s
      = .error (.unknownKeyDecrypt badID (GovaultDB.GetKeyIDs ⟨ks, d1⟩)) := by
  refine ⟨fun t => rfl, ?_, ?_⟩
  · have hres : resolveKeyID ⟨ks, d1⟩ [id] = id := by
      simp [resolveKeyID, hidne]
    exact roundtrip_core ks d1 d2 nonce p [id] key (by rw [hres]; exact hlk)
      (by rw [hres]; exact hid) hkb hnl hnb
  · have hse : s ≠ "" := by
      intro he
      subst he
      simp [splitN, splitNChars, splitFirst, List.dropWhile] at hsplit
    simp only [GovaultDB.Decrypt, if_neg hse, hsplit, decryptParts, hbad]

/-- Witness for C3: keys `{1, 2}`, token under `"1"` decrypted after the
default moved from `"1"` to `"2"`; token naming `"9"` is unknown. -/
theorem c3_witness :
    (∀ t, GovaultDB.Decrypt ⟨gW.keys, "1"⟩ t = GovaultDB.Decrypt ⟨gW.keys, "2"⟩ t) ∧
    (GovaultDB.Encrypt ⟨gW.keys, "1"⟩ nonceW "hello" ["1"]).bind
      (fun t => GovaultDB.Decrypt ⟨gW.keys, "2"⟩ t) = .ok "hello" ∧
    GovaultDB.Decrypt ⟨gW.keys, "1"⟩ "9|x|y"
      = .error (.unknownKeyDecrypt "9" (GovaultDB.GetKeyIDs ⟨gW.keys, "1"⟩)) :=
  c3_decrypt_uses_token_key gW.keys "1" "2" nonceW "hello" "1" key1 "9|x|y" "x" "y" "9"
    (by decide) (by decide) (by decide) (by decide) (by decide) (by decide)
    (by decide) (by decide)

/-- **C4** (amended): for a non-empty plaintext and a resolvable key whose
id contains no separator, the produced token is the key ID and the
standard-base64 encodings of nonce and ciphertext joined by two
separators; base64 output never contains the separator, so the bounded
3-way split recovers exactly the three segments. -/
theorem c4_token_format (g : GovaultDB) (nonce : List Nat) (p : String)
    (kid : List String) (key : Key)
    (hp : p ≠ "")
    (hlk : g.keys.lookup (resolveKeyID g kid) = some key)
    (hid : '|' ∉ (resolveKeyID g kid).data) :
    g.Encrypt nonce p kid = .ok (resolveKeyID g kid ++ "|" ++ base64Encode nonce ++ "|"
        ++ base64Encode (gcmSeal key.value nonce (strToBytes p))) ∧
    '|' ∉ (base64Encode nonce).data ∧
    '|' ∉ (base64Encode (gcmSeal key.value nonce (strToBytes p))).data ∧
    splitN (resolveKeyID g kid ++ "|" ++ base64Encode nonce ++ "|"
        ++ base64Encode (gcmSeal key.value nonce (strToBytes p))) '|' 3
      = [resolveKeyID g kid, base64Encode nonce,
         base64Encode (gcmSeal key.value nonce (strToBytes p))] ∧
    (resolveKeyID g kid ++ "|" ++ base64Encode nonce ++ "|"
        ++ base64Encode (gcmSeal key.value nonce (strToBytes p))).data.count '|' = 2 := by
  refine ⟨?_, bar_not_mem_base64Encode nonce, bar_not_mem_base64Encode _, ?_, ?_⟩
  · simp only [GovaultDB.Encrypt, if_neg hp, hlk]
  · exact splitN_token _ _ _ hid (bar_not_mem_base64Encode nonce)
  · exact token_count_bar _ _ _ hid (bar_not_mem_base64Encode nonce)
      (bar_not_mem_base64Encode _)

/-- Witness for C4 at a concrete registry, nonce and plaintext. -/
theorem c4_witness :
    gW.Encrypt nonceW "a@x.com" [] = .ok ("2" ++ "|" ++ base64Encode nonceW ++ "|"
        ++ base64Encode (gcmSeal key2.value nonceW (strToBytes "a@x.com"))) ∧
    ("2" ++ "|" ++ base64Encode nonceW ++ "|"
        ++ base64Encode (gcmSeal key2.value nonceW (strToBytes "a@x.com"))).data.count '|'
      = 2 := by
  have h := c4_token_format gW nonceW "a@x.com" [] key2 (by decide) (by decide) (by decide)
  exact ⟨h.1, h.2.2.2.2⟩

/-- Counterexample to C4 as stated: a registered key ID containing the
separator yields a token with three separators, which does not split into
the three intended segments. -/
theorem c4_counterexample :
    (gBad.Encrypt nonceW "x" []).map (fun t => t.data.count '|') = .ok 3 ∧
    (gBad.Encrypt nonceW "x" []).map (fun t => t.data.count '|') ≠ .ok 2 := by
  constructor
  · decide
  · decide

/-- **C5** (amended): `Encrypt` resolves an explicit non-empty key ID
argument to that key (the produced token being that ID followed by the
separator and the two base64 segments), otherwise the default key; when
the resolved id is not in the key map it returns the unknown-key error and
no token. -/
theorem c5_encrypt_key_resolution (g : GovaultDB) (nonce : List Nat) (p : String)
    (k : String) (rest kid : List String) (key : Key)
    (hp : p ≠ "") (hk : k ≠ "")
    (hlk : g.keys.lookup k = some key)
    (hmiss : g.keys.lookup (resolveKeyID g kid) = none) :
    resolveKeyID g (k :: rest) = k ∧
    resolveKeyID g [] = g.defaultKey ∧
    resolveKeyID g ("" :: rest) = g.defaultKey ∧
    g.Encrypt nonce p (k :: rest) = .ok (k ++ "|" ++ base64Encode nonce ++ "|"
        ++ base64Encode (gcmSeal key.value nonce (strToBytes p))) ∧
    g.Encrypt nonce p kid = .error (.unknownKeyEncrypt (resolveKeyID g kid)) := by
  have hres : resolveKeyID g (k :: rest) = k := by
    simp [resolveKeyID, hk]
  refine ⟨hres, rfl, by simp [resolveKeyID], ?_, ?_⟩
  · simp only [GovaultDB.Encrypt, if_neg hp, hres, hlk]
  · simp only [GovaultDB.Encrypt, if_neg hp, hmiss]

/-- Witness for C5: explicit override `"1"` against default `"2"`, and a
registry miss for explicit id `"9"`. -/
theorem c5_witness :
    resolveKeyID gW ["1"] = "1" ∧
    resolveKeyID gW [] = gW.defaultKey ∧
    resolveKeyID gW ("" :: []) = gW.defaultKey ∧
    gW.Encrypt nonceW "hi" ["1"] = .ok ("1" ++ "|" ++ base64Encode nonceW ++ "|"
        ++ base64Encode (gcmSeal key1.value nonceW (strToBytes "hi"))) ∧
    gW.Encrypt nonceW "hi" ["9"] = .error (.unknownKeyEncrypt (resolveKeyID gW ["9"])) :=
  c5_encrypt_key_resolution gW nonceW "hi" "1" [] ["9"] key1
    (by decide) (by decide) (by decide) (by decide)

/-- Counterexample to C5 as stated: under an explicit key ID containing
the separator, the token's first segment is not that ID. -/
theorem c5_counterexample :
    (gBad.Encrypt nonceW "x" ["a|b"]).map (fun t => (splitN t '|' 3).headD "")
        = .ok "a" ∧
    ("a" : String) ≠ "a|b" := by
  constructor
  · decide
  · decide

/-- **C9**: the empty plaintext encrypts to the empty token and the empty
token decrypts to the empty string, for every registry (even one whose
default key is absent) and every nonce — there is no key lookup and no
cipher invocation on this path. -/
theorem c9_empty_fast_path (g : GovaultDB) (nonce : List Nat) (kid : List String) :
    g.Encrypt nonce "" kid = .ok "" ∧ g.Decrypt "" = .ok "" := by
  constructor
  · simp [GovaultDB.Encrypt]
  · simp [GovaultDB.Decrypt]

/-- **C10**: `GetKeyIDFromEncryptedData` is total: it always returns,
without error, the prefix of the input before the first separator (the
whole input when no separator occurs, the empty string on empty input). -/
theorem c10_getKeyID_total (g : GovaultDB) (s : String) :
    g.GetKeyIDFromEncryptedData s = .ok ⟨s.data.takeWhile (· ≠ '|')⟩ ∧
    ('|' ∉ s.data → (⟨s.data.takeWhile (· ≠ '|')⟩ : String) = s) := by
  constructor
  · unfold GovaultDB.GetKeyIDFromEncryptedData
    by_cases hs : s = ""
    · subst hs
      simp
    · rw [if_neg hs]
      unfold splitN
      rw [splitNChars_two]
      rcases h1 : splitFirst '|' s.data with _ | ⟨p1, r1⟩
      · have hnm : '|' ∉ s.data := by
          have h0 := (splitFirst_count '|' s.data).1 h1
          exact List.count_eq_zero.mp h0
        rw [takeWhile_eq_self_of_not_mem '|' s.data hnm]
        rfl
      · rw [← splitFirst_some_fst '|' s.data p1 r1 h1]
        rfl
  · intro hnm
    rw [takeWhile_eq_self_of_not_mem '|' s.data hnm]

/-- Witness for C10 on an input with no separator. -/
theorem c10_witness :
    gW.GetKeyIDFromEncryptedData "noseparator" = .ok "noseparator" := by
  have h := c10_getKeyID_total gW "noseparator"
  rw [h.1]
  exact congrArg Except.ok (h.2 (by decide))

theorem decryptParts_ne_invalid (g : GovaultDB) (kid nb cb : String) :
    decryptParts g kid nb cb ≠ .error .invalidFormat := by
  unfold decryptParts
  split
  · simp
  · split
    · simp
    · split
      · simp
      · split
        · simp
        · simp

/-- **C6** (amended): for every non-empty input, `Decrypt` returns the
invalid-format (malformed-token) error exactly when the input contains
fewer than two separators (so the bounded split yields fewer than three
parts); a token with three possibly-empty segments is not rejected at the
split stage — an empty or unknown key ID yields the unknown-key error,
and base64/AEAD failures surface as their own errors. -/
theorem c6_malformed_iff (g : GovaultDB) (s : String) (hs : s ≠ "") :
    g.Decrypt s = .error .invalidFormat ↔ s.data.count '|' < 2 := by
  obtain ⟨ks, d⟩ := g
  simp only [GovaultDB.Decrypt, if_neg hs]
  unfold splitN
  rcases h1 : splitFirst '|' s.data with _ | ⟨p1, r1⟩
  · rw [splitNChars_three_none _ h1]
    have hc := (splitFirst_count '|' s.data).1 h1
    constructor
    · intro _
      omega
    · intro _
      rfl
  · rw [splitNChars_three_some _ _ _ h1]
    obtain ⟨hc1, _⟩ := (splitFirst_count '|' s.data).2 p1 r1 h1
    rcases h2 : splitFirst '|' r1 with _ | ⟨p2, r2⟩
    · rw [splitNChars_two_none _ h2]
      have hc2 := (splitFirst_count '|' r1).1 h2
      constructor
      · intro _
        omega
      · intro _
        rfl
    · rw [splitNChars_two_some _ _ _ h2]
      obtain ⟨hc2, _⟩ := (splitFirst_count '|' r1).2 p2 r2 h2
      constructor
      · intro hcontra
        exact absurd hcontra (decryptParts_ne_invalid ⟨ks, d⟩ ⟨p1⟩ ⟨p2⟩ ⟨r2⟩)
      · intro hlt
        exact absurd hlt (by omega)

/-- Witness for C6: an input with no separator is rejected as malformed. -/
theorem c6_witness : gW.Decrypt "ab" = .error .invalidFormat :=
  (c6_malformed_iff gW "ab" (by decide)).mpr (by decide)

/-- Counterexample to C6 as stated: a token whose keyID segment is empty
(three structural parts, first one empty) is not rejected as malformed; it
fails key lookup instead. -/
theorem c6_counterexample :
    gW.Decrypt "|x|y" = .error (.unknownKeyDecrypt "" ["1", "2"]) ∧
    gW.Decrypt "|x|y" ≠ .error .invalidFormat := by
  constructor
  · decide
  · decide

/-! ## FieldWalker: model of Go reflection values -/

mutual

/-- A Go runtime value as seen by the reflective walkers: a string, a
non-string scalar, a struct with its fields, a (possibly nil) pointer, or
a slice. -/
inductive Val where
  | vstr : String → Val
  | vint : Int → Val
  | vstruct : List Fld → Val
  | vptr : Option Val → Val
  | vslice : List Val → Val

/-- One struct field as reflection sees it: name, the value of its
`encrypted` tag, whether it is exported (CanSet requires this plus
addressability), and its current value. -/
inductive Fld where
  | mk : String → String → Bool → Val → Fld

end

/-- `strings.Contains(s, "|")`. -/
def strContainsBar (s : String) : Bool := s.data.contains '|'

mutual

/-- Body of `GovaultDB.DecryptRecursive` on a reflected value.  `addr`
records Go addressability of the value (true when it was reached through a
pointer); `CanSet` of a field is `addr` together with the field being
exported.  The pair returned is the value after the in-place mutations and
the Go `error` result (`none` = `nil`). -/
def decryptVal (g : GovaultDB) : Val → Bool → Val × Option GovaultError
  | .vptr none, _ => (.vptr none, none)
  | .vptr (some inner), _ =>
    let r := decryptVal g inner true
    (.vptr (some r.1), r.2)
  | .vslice elems, addr =>
    let r := decryptElems g elems addr
    (.vslice r.1, r.2)
  | .vstruct fs, addr =>
    let r := decryptFields g fs addr
    (.vstruct r.1, r.2)
  | v, _ => (v, none)

/-- The slice loop of `DecryptRecursive`: pointer elements are recursed
into when non-nil; struct elements only when addressable; anything else is
skipped. -/
def decryptElems (g : GovaultDB) : List Val → Bool → List Val × Option GovaultError
  | [], _ => ([], none)
  | e :: es, addr =>
    let r : Val × Option GovaultError :=
      match e with
      | .vptr none => (e, none)
      | .vptr (some inner) =>
        let ri := decryptVal g inner true
        (.vptr (some ri.1), ri.2)
      | .vstruct fs =>
        if addr then
          let ri := decryptFields g fs true
          (.vstruct ri.1, ri.2)
        else (e, none)
      | _ => (e, none)
    match r with
    | (e2, some err) => (e2 :: es, some err)
    | (e2, none) =>
      let rs := decryptElems g es addr
      (e2 :: rs.1, rs.2)

/-- One iteration of the field loop of `DecryptRecursive`: skip unsettable
fields; on a field tagged `encrypted:"true"` of string kind whose value is
non-empty and contains the separator, apply `Decrypt` (wrapping a failure
with the field name); on untagged fields recurse into structs, non-nil
pointers and slices.  The Bool result is the Go `error` of this iteration. -/
def decryptField (g : GovaultDB) (addr : Bool) : Fld → Fld × Option GovaultError
  | .mk n tag settable fv =>
    if !(addr && settable) then (.mk n tag settable fv, none)
    else if tag = "true" then
      match fv with
      | .vstr s =>
        if s ≠ "" ∧ strContainsBar s = true then
          match g.Decrypt s with
          | .error e => (.mk n tag settable (.vstr s), some (.fieldDecryptError n e))
          | .ok dec => (.mk n tag settable (.vstr dec), none)
        else (.mk n tag settable (.vstr s), none)
      | other => (.mk n tag settable other, none)
    else
      match fv with
      | .vstruct inner =>
        let r := decryptFields g inner true
        (.mk n tag settable (.vstruct r.1), r.2)
      | .vptr none => (.mk n tag settable (.vptr none), none)
      | .vptr (some inner) =>
        let r := decryptVal g inner true
        (.mk n tag settable (.vptr (some r.1)), r.2)
      | .vslice elems =>
        let r := decryptElems g elems true
        (.mk n tag settable (.vslice r.1), r.2)
      | other => (.mk n tag settable other, none)

/-- The field loop of `DecryptRecursive`: fields are processed in order and
a failure aborts the loop, leaving the failing and the following fields
untouched while keeping earlier mutations. -/
def decryptFields (g : GovaultDB) : List Fld → Bool → List Fld × Option GovaultError
  | [], _ => ([], none)
  | f :: fs, addr =>
    match decryptField g addr f with
    | (f2, some e) => (f2 :: fs, some e)
    | (f2, none) =>
      let rs := decryptFields g fs addr
      (f2 :: rs.1, rs.2)

end

/-- `GovaultDB.DecryptRecursive`: the root value of `reflect.ValueOf` is
not addressable; a non-nil pointer root is dereferenced (making the target
addressable), a nil pointer or a non-composite root is a no-op. -/
def GovaultDB.DecryptRecursive (g : GovaultDB) (v : Val) : Val × Option GovaultError :=
  decryptVal g v false

/-- One iteration of the field loop of `BunInsertQuery.encryptModel`: skip
unsettable fields; on a field tagged `encrypted:"true"` of string kind
with non-empty value (no separator guard here), encrypt with the query key
ID when non-empty, else the default key; wrap failures with the field
name.  There is no recursion into untagged composite fields.  The middle
component reports whether the nonce was consumed. -/
def encryptField (g : GovaultDB) (qKeyID : String) (nonce : List Nat) (addr : Bool) :
    Fld → Fld × Bool × Option GovaultError
  | .mk n tag settable fv =>
    if !(addr && settable) then (.mk n tag settable fv, false, none)
    else if tag = "true" then
      match fv with
      | .vstr s =>
        if s ≠ "" then
          match (if qKeyID ≠ "" then g.Encrypt nonce s [qKeyID] else g.Encrypt nonce s []) with
          | .error e => (.mk n tag settable (.vstr s), false, some (.fieldEncryptError n e))
          | .ok t => (.mk n tag settable (.vstr t), true, none)
        else (.mk n tag settable (.vstr s), false, none)
      | other => (.mk n tag settable other, false, none)
    else (.mk n tag settable fv, false, none)

/-- The field loop of `encryptModel`, threading the index `k` into the
nonce stream `ns`. -/
def encryptFields (g : GovaultDB) (qKeyID : String) (ns : Nat → List Nat) :
    List Fld → Nat → Bool → List Fld × Nat × Option GovaultError
  | [], k, _ => ([], k, none)
  | f :: fs, k, addr =>
    match encryptField g qKeyID (ns k) addr f with
    | (f2, _, some e) => (f2 :: fs, k, some e)
    | (f2, used, none) =>
      let rs := encryptFields g qKeyID ns fs (if used then k + 1 else k) addr
      (f2 :: rs.1, rs.2)

/-- `BunInsertQuery.encryptModel`: dereferences a pointer root, then walks
the fields only when the (dereferenced) root is a struct — any other root,
in particular a slice, is returned unchanged with a nil error.  A struct
root reached without a pointer has unsettable fields.  `ns`/`k` model the
stream of random nonces. -/
def encryptModel (g : GovaultDB) (qKeyID : String) (ns : Nat → List Nat) (k : Nat) :
    Val → Val × Nat × Option GovaultError
  | .vptr (some (.vstruct fs)) =>
    let r := encryptFields g qKeyID ns fs k true
    (.vptr (some (.vstruct r.1)), r.2)
  | .vstruct fs =>
    let r := encryptFields g qKeyID ns fs k false
    (.vstruct r.1, r.2)
  | v => (v, k, none)

/-- Constant nonce stream used in concrete walker statements. -/
def nsW : Nat → List Nat := fun _ => nonceW

/-- A concrete valid token under `gW`'s key `"2"` for the plaintext
`"user1@example.com"`. -/
def tokW : String :=
  "2|" ++ base64Encode nonceW ++ "|"
    ++ base64Encode (gcmSeal key2.value nonceW (strToBytes "user1@example.com"))

/-- A second concrete valid token under `gW`'s key `"1"` for the plaintext
`"+62811111111"`. -/
def tokW2 : String :=
  "1|" ++ base64Encode nonceW ++ "|"
    ++ base64Encode (gcmSeal key1.value nonceW (strToBytes "+62811111111"))

/-- **C2**: the encrypt pass (`encryptModel`) is the identity on every
slice root — pointer-to-slice or bare slice — with no error, while the
decrypt pass (`DecryptRecursive`) visits slice elements and decrypts their
tagged string fields: shown concretely on a one-element slice of structs
whose tagged field the decrypt pass rewrites and the encrypt pass leaves
as plaintext. -/
theorem c2_slice_root_encrypt_noop :
    (∀ (g : GovaultDB) (qKeyID : String) (ns : Nat → List Nat) (k : Nat) (elems : List Val),
      encryptModel g qKeyID ns k (.vptr (some (.vslice elems)))
          = (.vptr (some (.vslice elems)), k, none) ∧
      encryptModel g qKeyID ns k (.vslice elems) = (.vslice elems, k, none)) ∧
    GovaultDB.DecryptRecursive gW
        (.vptr (some (.vslice [.vstruct [.mk "Email" "true" true (.vstr tokW)]])))
      = (.vptr (some (.vslice [.vstruct [.mk "Email" "true" true
          (.vstr "user1@example.com")]])), none) ∧
    encryptModel gW "" nsW 0
        (.vptr (some (.vslice [.vstruct [.mk "Email" "true" true
          (.vstr "user1@example.com")]])))
      = (.vptr (some (.vslice [.vstruct [.mk "Email" "true" true
          (.vstr "user1@example.com")]])), 0, none) := by
  refine ⟨fun g q ns k elems => ⟨rfl, rfl⟩, ?_, rfl⟩
  rfl

/-- **C7**: on the decrypt pass a tagged settable string field is
transformed only when non-empty and containing the separator (otherwise
left unchanged with no error), while the encrypt pass transforms every
non-empty tagged settable string field unconditionally. -/
theorem c7_decrypt_guard_encrypt_unconditional (g : GovaultDB) (n s d t qKeyID : String)
    (ns : Nat → List Nat) :
    (¬ (s ≠ "" ∧ strContainsBar s = true) →
      g.DecryptRecursive (.vptr (some (.vstruct [.mk n "true" true (.vstr s)])))
        = (.vptr (some (.vstruct [.mk n "true" true (.vstr s)])), none)) ∧
    ((s ≠ "" ∧ strContainsBar s = true) → g.Decrypt s = .ok d →
      g.DecryptRecursive (.vptr (some (.vstruct [.mk n "true" true (.vstr s)])))
        = (.vptr (some (.vstruct [.mk n "true" true (.vstr d)])), none)) ∧
    (s ≠ "" →
      (if qKeyID ≠ "" then g.Encrypt (ns 0) s [qKeyID] else g.Encrypt (ns 0) s []) = .ok t →
      encryptModel g qKeyID ns 0 (.vptr (some (.vstruct [.mk n "true" true (.vstr s)])))
        = (.vptr (some (.vstruct [.mk n "true" true (.vstr t)])), 1, none)) := by
  refine ⟨?_, ?_, ?_⟩
  · intro hno
    simp only [GovaultDB.DecryptRecursive, decryptVal, decryptFields, decryptField,
      Bool.and_true, Bool.not_true, if_neg hno]
    rfl
  · intro hyes hdec
    simp only [GovaultDB.DecryptRecursive, decryptVal, decryptFields, decryptField,
      Bool.and_true, Bool.not_true, if_pos hyes, hdec]
    rfl
  · intro hne henc
    simp only [encryptModel, encryptFields, encryptField,
      Bool.and_true, Bool.not_true, if_pos hne, henc]
    rfl

/-- Witness for C7: a plain value without separator survives the decrypt
pass unchanged and is encrypted unconditionally by the encrypt pass; a
token is decrypted. -/
theorem c7_witness :
    gW.DecryptRecursive (.vptr (some (.vstruct [.mk "Email" "true" true (.vstr "plain")])))
        = (.vptr (some (.vstruct [.mk "Email" "true" true (.vstr "plain")])), none) ∧
    gW.DecryptRecursive (.vptr (some (.vstruct [.mk "Email" "true" true (.vstr tokW)])))
        = (.vptr (some (.vstruct [.mk "Email" "true" true
            (.vstr "user1@example.com")])), none) ∧
    encryptModel gW "" nsW 0 (.vptr (some (.vstruct [.mk "Email" "true" true (.vstr "plain")])))
        = (.vptr (some (.vstruct [.mk "Email" "true" true
            (.vstr ("2" ++ "|" ++ base64Encode nonceW ++ "|"
              ++ base64Encode (gcmSeal key2.value nonceW (strToBytes "plain"))))])), 1, none) :=
  ⟨(c7_decrypt_guard_encrypt_unconditional gW "Email" "plain" "" "" "" nsW).1 (by decide),
   (c7_decrypt_guard_encrypt_unconditional gW "Email" tokW "user1@example.com" "" "" nsW).2.1
     (by constructor
         · decide
         · decide)
     (by decide),
   (c7_decrypt_guard_encrypt_unconditional gW "Email" "plain" "" _ "" nsW).2.2
     (by decide) (by decide)⟩

theorem decryptFields_append (g : GovaultDB) (a b : List Fld) (addr : Bool) :
    decryptFields g (a ++ b) addr =
      match decryptFields g a addr with
      | (a2, some e) => (a2 ++ b, some e)
      | (a2, none) =>
        match decryptFields g b addr with
        | (b2, e) => (a2 ++ b2, e) := by
  induction a with
  | nil =>
    cases hb : decryptFields g b addr with
    | mk b2 e => simp [decryptFields, hb]
  | cons f fs ih =>
    cases hr : decryptField g addr f with
    | mk f2 err =>
      cases err with
      | some e => simp [decryptFields, hr, List.cons_append]
      | none =>
        cases hfs : decryptFields g fs addr with
        | mk fs2 e2 =>
          cases hb : decryptFields g b addr with
          | mk b2 eb =>
            cases e2 with
            | some e => simp [decryptFields, hr, hfs, hb, ih, List.cons_append]
            | none => simp [decryptFields, hr, hfs, hb, ih, List.cons_append]

theorem encryptFields_append (g : GovaultDB) (qKeyID : String) (ns : Nat → List Nat)
    (a b : List Fld) (k : Nat) (addr : Bool) :
    encryptFields g qKeyID ns (a ++ b) k addr =
      match encryptFields g qKeyID ns a k addr with
      | (a2, k2, some e) => (a2 ++ b, k2, some e)
      | (a2, k2, none) =>
        match encryptFields g qKeyID ns b k2 addr with
        | (b2, k3, e) => (a2 ++ b2, k3, e) := by
  induction a generalizing k with
  | nil =>
    cases hb : encryptFields g qKeyID ns b k addr with
    | mk b2 r =>
      cases r with
      | mk k3 e => simp [encryptFields, hb]
  | cons f fs ih =>
    cases hr : encryptField g qKeyID (ns k) addr f with
    | mk f2 r =>
      cases r with
      | mk used err =>
        cases err with
        | some e => simp [encryptFields, hr, List.cons_append]
        | none =>
          cases hfs : encryptFields g qKeyID ns fs (if used then k + 1 else k) addr with
          | mk fs2 r2 =>
            cases r2 with
            | mk k2 e2 =>
              cases hb : encryptFields g qKeyID ns b k2 addr with
              | mk b2 r3 =>
                cases r3 with
                | mk k3 eb =>
                  cases e2 with
                  | some e => simp [encryptFields, hr, hfs, hb, ih, List.cons_append]
                  | none => simp [encryptFields, hr, hfs, hb, ih, List.cons_append]

/-- **C8**: in both walker passes, a transform failure on a field aborts
the traversal with the error wrapped with that field's name; the fields
processed before the failure keep their transformed values (no rollback)
and the failing field and all following fields are untouched. -/
theorem c8_abort_no_rollback (g : GovaultDB) (preD preD2 preE preE2 post post2 : List Fld)
    (n n2 s s2 : String) (e e2 : GovaultError) (qKeyID : String) (ns : Nat → List Nat)
    (k k2 : Nat)
    (hpreD : decryptFields g preD true = (preD2, none))
    (hguard : s ≠ "" ∧ strContainsBar s = true)
    (hfail : g.Decrypt s = .error e)
    (hpreE : encryptFields g qKeyID ns preE k true = (preE2, k2, none))
    (hs2 : s2 ≠ "")
    (hefail : (if qKeyID ≠ "" then g.Encrypt (ns k2) s2 [qKeyID]
        else g.Encrypt (ns k2) s2 []) = .error e2) :
    decryptFields g (preD ++ .mk n "true" true (.vstr s) :: post) true
      = (preD2 ++ .mk n "true" true (.vstr s) :: post, some (.fieldDecryptError n e)) ∧
    encryptFields g qKeyID ns (preE ++ .mk n2 "true" true (.vstr s2) :: post2) k true
      = (preE2 ++ .mk n2 "true" true (.vstr s2) :: post2, k2, some (.fieldEncryptError n2 e2)) := by
  constructor
  · rw [decryptFields_append, hpreD]
    simp only [decryptFields, decryptField, Bool.and_true, Bool.not_true,
      if_pos hguard, hfail]
    rfl
  · rw [encryptFields_append, hpreE]
    simp only [encryptFields, encryptField, Bool.and_true, Bool.not_true,
      if_pos hs2, hefail]
    rfl

/-- Witness for C8: decrypt pass with a valid token before a bad token —
the first field stays decrypted, the failing and following fields keep
their stored values, the error names field `"B"`; encrypt pass with an
unknown explicit key fails on the first tagged field, wrapping the error
with its name. -/
theorem c8_witness :
    decryptFields gW
        [Fld.mk "A" "true" true (.vstr tokW),
         Fld.mk "B" "true" true (.vstr "9|x|y"),
         Fld.mk "C" "true" true (.vstr tokW2)] true
      = ([Fld.mk "A" "true" true (.vstr "user1@example.com"),
          Fld.mk "B" "true" true (.vstr "9|x|y"),
          Fld.mk "C" "true" true (.vstr tokW2)],
         some (.fieldDecryptError "B" (.unknownKeyDecrypt "9" (GovaultDB.GetKeyIDs gW)))) ∧
    encryptFields gW "9" nsW
        [Fld.mk "Name" "" true (.vstr "User 1"),
         Fld.mk "Email" "true" true (.vstr "x"),
         Fld.mk "Phone" "true" true (.vstr "y")] 0 true
      = ([Fld.mk "Name" "" true (.vstr "User 1"),
          Fld.mk "Email" "true" true (.vstr "x"),
          Fld.mk "Phone" "true" true (.vstr "y")], 0,
         some (.fieldEncryptError "Email" (.unknownKeyEncrypt "9"))) := by
  have h := c8_abort_no_rollback gW
    [Fld.mk "A" "true" true (.vstr tokW)]
    [Fld.mk "A" "true" true (.vstr "user1@example.com")]
    [Fld.mk "Name" "" true (.vstr "User 1")]
    [Fld.mk "Name" "" true (.vstr "User 1")]
    [Fld.mk "C" "true" true (.vstr tokW2)]
    [Fld.mk "Phone" "true" true (.vstr "y")]
    "B" "Email" "9|x|y" "x"
    (.unknownKeyDecrypt "9" (GovaultDB.GetKeyIDs gW)) (.unknownKeyEncrypt "9")
    "9" nsW 0 0
    (by rfl) (by decide) (by decide) (by rfl) (by decide) (by decide)
  exact ⟨h.1, h.2⟩

end Govault
